import Mathlib

/-!
Verification development for the result-processing and export pipeline of
the Indeed job scraper frontend (a React application).

The definitions below shallowly embed the relevant parts of the frontend
source files:

- the filter and sort engine and the analytics memo of JobTable.js,
- the API client scrapeJobs and downloadFile of services/api.js,
- the export dispatcher handleDownload of components/DownloadButtons.js.

Modelling conventions: JavaScript strings are Lean strings and character
list operations model the string methods (trim, toLowerCase, includes,
replace, substring); the JavaScript number used as a page count is an
integer; Math.round over JavaScript numbers is modelled as exact rational
rounding (half toward positive infinity); localeCompare is modelled as
three-way lexicographic comparison of the character sequences; the stable
Array.prototype.sort is modelled as a stable insertion sort with the same
comparator contract; asynchronous network calls are modelled by passing the
outcome of the single request as an explicit argument, together with a
boolean recording whether the request was issued at all.
-/

/-- Model of the JavaScript method toLowerCase, applied characterwise
(ASCII case mapping, which covers every string the application produces). -/
def jsToLower (s : String) : String := String.mk (s.data.map Char.toLower)

/-- Model of the JavaScript method trim: leading and trailing whitespace
removed. -/
def jsTrim (s : String) : String :=
  String.mk (((s.data.dropWhile Char.isWhitespace).reverse.dropWhile Char.isWhitespace).reverse)

/-- Occurrence of pat as a contiguous chunk of l, the substring test behind
the JavaScript method includes. -/
def chunkMem (pat : List Char) : List Char → Bool
  | [] => pat.isEmpty
  | c :: t => pat.isPrefixOf (c :: t) || chunkMem pat t

/-- Model of the JavaScript method includes: substring occurrence. -/
def jsIncludes (s pat : String) : Bool := chunkMem pat.data s.data

/-- Three-way lexicographic comparison of character lists, with values in
-1, 0, 1. -/
def lexCmp : List Char → List Char → Int
  | [], [] => 0
  | [], _ :: _ => -1
  | _ :: _, [] => 1
  | a :: as, b :: bs => if a < b then -1 else if b < a then 1 else lexCmp as bs

/-- Model of the JavaScript method localeCompare as used by the sort
comparator (locale-aware collation modelled as code-point order, which
agrees with it on the ASCII data the application handles). -/
def localeCompare (a b : String) : Int := lexCmp a.data b.data

/-- Insertion step of the stable sort model: x is placed immediately before
the first element that compares strictly greater, hence after every element
that compares equal to it. -/
def jsInsert {α : Type} (c : α → α → Int) (x : α) : List α → List α
  | [] => [x]
  | y :: ys => if c x y < 0 then x :: y :: ys else y :: jsInsert c x ys

/-- Model of the stable Array.prototype.sort with comparator c. -/
def jsSort {α : Type} (c : α → α → Int) (l : List α) : List α :=
  l.foldl (fun acc x => jsInsert c x acc) []

/-- One scraped job record as consumed by JobTable.js; every field may be
absent in the raw data. -/
structure Job where
  Title : Option String
  Company : Option String
  Location : Option String
  Link : Option String
deriving DecidableEq, Repr

/-- Dynamic field access a[sortField], as used by the sort comparator of
processedJobs in JobTable.js; an unknown field name is undefined. -/
def jobGet (j : Job) (field : String) : Option String :=
  if field = "Title" then j.Title
  else if field = "Company" then j.Company
  else if field = "Location" then j.Location
  else if field = "Link" then j.Link
  else none

/-- Sort key of a record: the code line aVal = a[sortField] || two quotes,
so an absent field (and the empty string itself) compares as the empty
string. -/
def sortKey (j : Job) (field : String) : String := (jobGet j field).getD ""

/-- The comparator passed to sort in processedJobs: localeCompare of the
two sort keys, negated unless the direction is asc. -/
def jobCmp (field dir : String) (a b : Job) : Int :=
  let comparison := localeCompare (sortKey a field) (sortKey b field)
  if dir = "asc" then comparison else -comparison

/-- Case-insensitive substring test of one optional field against the
filter text; an absent field never matches (optional chaining in the
source). -/
def optFieldMatch (fld : Option String) (filterText : String) : Bool :=
  match fld with
  | none => false
  | some s => jsIncludes (jsToLower s) (jsToLower filterText)

/-- The filter predicate of processedJobs: title, company or location
matches. -/
def jobMatches (filterText : String) (j : Job) : Bool :=
  optFieldMatch j.Title filterText || optFieldMatch j.Company filterText
    || optFieldMatch j.Location filterText

/-- Filter stage of processedJobs: the filter is applied only when the
trimmed filter text is non-empty, and then it matches the untrimmed text. -/
def filterJobs (filterText : String) (jobs : List Job) : List Job :=
  if jsTrim filterText ≠ "" then jobs.filter (jobMatches filterText) else jobs

/-- Sort stage of processedJobs: applied only when a sort field is set
(the empty string is the unset sentinel). -/
def sortStage (field dir : String) (l : List Job) : List Job :=
  if field ≠ "" then jsSort (jobCmp field dir) l else l

/-- The derived ProcessedView of JobTable.js: filter first, then sort. -/
def processedJobs (jobs : List Job) (filterText field dir : String) : List Job :=
  sortStage field dir (filterJobs filterText jobs)

/-- Company frequency key: job.Company || the string Unknown (the empty
string is falsy in JavaScript and also maps to Unknown). -/
def companyKey (j : Job) : String :=
  match j.Company with
  | none => "Unknown"
  | some s => if s = "" then "Unknown" else s

/-- Location frequency key, analogous to the company key. -/
def locationKey (j : Job) : String :=
  match j.Location with
  | none => "Unknown"
  | some s => if s = "" then "Unknown" else s

/-- Valid-link test of the analytics: job.Link truthy and different from
the sentinel. -/
def linkValid (j : Job) : Bool :=
  match j.Link with
  | none => false
  | some s => s != "" && s != "N/A"

/-- Keys in first-occurrence order: the insertion order of the JavaScript
frequency object built by the analytics. -/
def firstOccurrences : List String → List String
  | [] => []
  | k :: rest => k :: (firstOccurrences rest).filter (fun k2 => k2 != k)

/-- Object.entries of the frequency map: each distinct key, in insertion
order, with its count. -/
def freqEntries (keys : List String) : List (String × Nat) :=
  (firstOccurrences keys).map (fun k => (k, keys.count k))

/-- Top-three computation of the analytics: entries sorted by descending
count with the stable sort, then the first three. -/
def topThree (keys : List String) : List (String × Nat) :=
  (jsSort (fun a b : String × Nat => (b.2 : Int) - (a.2 : Int)) (freqEntries keys)).take 3

/-- Math.round modelled over exact rationals: round half toward positive
infinity. -/
def mathRound (q : ℚ) : ℤ := ⌊q + 1/2⌋

/-- The summary record computed by the analytics memo of JobTable.js. -/
structure AnalyticsSummary where
  totalJobs : Nat
  uniqueCompanies : Nat
  uniqueLocations : Nat
  validLinksPercentage : Int
  topCompanies : List (String × Nat)
  topLocations : List (String × Nat)
deriving DecidableEq, Repr

/-- The analytics memo of JobTable.js; none models the null returned on an
empty job list (the no-data signal). -/
def analytics (jobs : List Job) : Option AnalyticsSummary :=
  if jobs.length = 0 then none
  else
    let validLinks := (jobs.filter linkValid).length
    let companyKeys := jobs.map companyKey
    let locationKeys := jobs.map locationKey
    some
      { totalJobs := jobs.length
        uniqueCompanies := (firstOccurrences companyKeys).length
        uniqueLocations := (firstOccurrences locationKeys).length
        validLinksPercentage := mathRound ((validLinks : ℚ) / (jobs.length : ℚ) * 100)
        topCompanies := topThree companyKeys
        topLocations := topThree locationKeys }

/-- An opaque binary payload; only its size is observable to the model. -/
structure Blob where
  size : Nat
deriving DecidableEq, Repr

/-- The observable part of an HTTP error response: status code and the
optional detail and message fields of its body. -/
structure HttpResp where
  status : Nat
  detail : Option String
  bodyMessage : Option String
deriving DecidableEq, Repr

/-- Transport-level failure of an axios request, as classified by the
catch blocks of services/api.js. -/
inductive NetFail where
  | server (resp : HttpResp)
  | timeout
  | connRefused
  | other (message : String)
deriving DecidableEq, Repr

/-- The response attached to a transport failure: present exactly when the
server answered with an error response. -/
def NetFail.response : NetFail → Option HttpResp
  | .server r => some r
  | _ => none

/-- The original cause attached to an enhanced error before rethrowing:
either a locally thrown JavaScript Error or a transport failure. -/
inductive ErrCause where
  | thrownError (message : String)
  | network (f : NetFail)
deriving DecidableEq, Repr

/-- The enhanced error built in services/api.js: message, originalError
and the copied response. -/
structure EnhancedError where
  message : String
  originalError : ErrCause
  response : Option HttpResp
deriving DecidableEq, Repr

/-- Outcome of the download network request, when it is issued. -/
inductive DlNet where
  | ok (blob : Blob)
  | fail (f : NetFail)
deriving DecidableEq, Repr

/-- The closed list of accepted export formats in downloadFile. -/
def validFormats : List String := ["csv", "excel", "json"]

/-- Model of downloadFile in services/api.js. The first component is the
result surfaced to the caller; the second is true exactly when a network
request was issued. An invalid format throws inside the try block and the
shared catch wraps every failure into an enhanced error whose message is
the fixed string Download failed. -/
def downloadFile (format : String) (net : DlNet) : Except EnhancedError Blob × Bool :=
  if validFormats.contains format then
    match net with
    | .ok b => (.ok b, true)
    | .fail f => (.error ⟨"Download failed", .network f, f.response⟩, true)
  else
    (.error ⟨"Download failed", .thrownError ("Invalid format: " ++ format), none⟩, false)

/-- The scrape response envelope consumed by the frontend. -/
structure ScrapeResp where
  success : Bool
  jobs : List Job
  total_jobs : Nat
  pages_scraped : Nat
  message : Option String
deriving DecidableEq, Repr

/-- Outcome of the scrape network request, when it is issued. -/
inductive ScrapeNet where
  | ok (r : ScrapeResp)
  | fail (f : NetFail)
deriving DecidableEq, Repr

/-- JavaScript or-else on an optional string: an absent or empty string
falls through to the default. -/
def jsOrElse (o : Option String) (d : String) : String :=
  match o with
  | none => d
  | some s => if s = "" then d else s

/-- The error-message classification in the catch block of scrapeJobs. -/
def scrapeClassify : NetFail → String
  | .server r =>
      jsOrElse r.detail (jsOrElse r.bodyMessage ("Server error (" ++ toString r.status ++ ")"))
  | .timeout => "Request timed out. Scraping took too long."
  | .connRefused => "Cannot connect to server. Make sure backend is running."
  | .other m => if m = "" then "Scraping failed" else m

/-- Model of scrapeJobs in services/api.js: client-side validation of the
job title and the page count happens before the network request; both
validation failures are thrown Errors whose message survives the catch
block unchanged. The second component records whether a network request
was issued. -/
def scrapeJobs (jobTitle location : String) (pages : Int) (net : ScrapeNet) :
    Except EnhancedError ScrapeResp × Bool :=
  if jsTrim jobTitle = "" then
    (.error ⟨"Job title is required and must be a non-empty string",
             .thrownError "Job title is required and must be a non-empty string", none⟩, false)
  else if pages < 1 ∨ pages > 10 then
    (.error ⟨"Pages must be between 1 and 10",
             .thrownError "Pages must be between 1 and 10", none⟩, false)
  else
    match net with
    | .ok r => (.ok r, true)
    | .fail f => (.error ⟨scrapeClassify f, .network f, f.response⟩, true)

/-- Character replacement of the timestamp: colons and periods become
dashes (the regex replace in handleDownload). -/
def replChar (c : Char) : Char := if c = ':' ∨ c = '.' then '-' else c

/-- The timestamp built in handleDownload from the current ISO time:
replace colons and periods by dashes, then keep the first 19 characters. -/
def jsTimestamp (iso : String) : String := String.mk ((iso.data.map replChar).take 19)

/-- The extension table of handleDownload; a lookup miss is undefined in
JavaScript. -/
def extensions : String → Option String :=
  fun format =>
    if format = "csv" then some "csv"
    else if format = "excel" then some "xlsx"
    else if format = "json" then some "json"
    else none

/-- One entry of the download history kept by DownloadButtons.js. -/
structure DownloadInfo where
  format : String
  filename : String
  timestamp : String
  size : Nat
deriving DecidableEq, Repr

/-- The download statistics state of DownloadButtons.js. -/
structure DownloadStats where
  totalDownloads : Nat
  lastDownload : Option DownloadInfo
  downloadHistory : List DownloadInfo
deriving DecidableEq, Repr

/-- The component state of DownloadButtons.js: the per-format busy map and
the statistics. -/
structure DlState where
  downloading : String → Bool
  stats : DownloadStats

/-- slice(-10): the most recent ten entries of the history. -/
def lastTen (l : List DownloadInfo) : List DownloadInfo := l.drop (l.length - 10)

/-- The statistics update performed on a successful download. -/
def pushStats (s : DownloadStats) (info : DownloadInfo) : DownloadStats :=
  { totalDownloads := s.totalDownloads + 1
    lastDownload := some info
    downloadHistory := lastTen (s.downloadHistory ++ [info]) }

/-- Pointwise update of the per-format busy map. -/
def setBusy (m : String → Bool) (format : String) (v : Bool) : String → Bool :=
  fun g => if g = format then v else m g

/-- Model of handleDownload in DownloadButtons.js. Returns the new
component state, the filename saved to disk (when the download succeeded)
and the alert message (when it failed). The finally block clears the busy
flag on both exit paths of the try; the early return on missing data
happens before the flag is ever set. -/
def handleDownload (hasData : Bool) (format : String) (net : DlNet) (nowIso : String)
    (s : DlState) : DlState × Option String × Option String :=
  if !hasData then (s, none, none)
  else
    let s1 : DlState := { s with downloading := setBusy s.downloading format true }
    match (downloadFile format net).1 with
    | .ok blob =>
        let filename :=
          "indeed-jobs-" ++ jsTimestamp nowIso ++ "." ++ (extensions format).getD "undefined"
        let info : DownloadInfo := ⟨format, filename, nowIso, blob.size⟩
        let s2 : DlState := { s1 with stats := pushStats s1.stats info }
        ({ s2 with downloading := setBusy s2.downloading format false }, some filename, none)
    | .error e =>
        let msg := "Download failed: " ++ jsOrElse (e.response.bind (fun r => r.detail)) e.message
        ({ s1 with downloading := setBusy s1.downloading format false }, none, some msg)

/-- Claim-side filter view, following the claim wording of C1 literally: an
empty filter text passes everything, and otherwise the case-insensitive
substring test alone decides. Stated only for comparison with filterJobs. -/
def specFilterView (filterText : String) (jobs : List Job) : List Job :=
  if filterText = "" then jobs else jobs.filter (jobMatches filterText)

/-- Claim-side valid-link test, following the claim wording of C4
literally: a link counts when it is defined and differs from the sentinel,
with no condition on emptiness. Stated only for comparison with linkValid. -/
def specLinkValid (j : Job) : Bool :=
  match j.Link with
  | none => false
  | some s => s != "N/A"

/-- First record of the worked example shared by the filter and sort
claims. -/
def demoJob1 : Job := ⟨some "Engineer", some "Acme", none, none⟩

/-- Second record of the worked example: empty title, same company. -/
def demoJob2 : Job := ⟨some "", some "Acme", none, none⟩

/-- Third record of the worked example. -/
def demoJob3 : Job := ⟨some "Analyst", some "Beta", none, none⟩

/-- The three-record job list of the worked example. -/
def demoJobs : List Job := [demoJob1, demoJob2, demoJob3]

/-- A record with a well-formed link, for the analytics examples. -/
def linkedJob : Job := ⟨some "T", some "A", some "L", some "http://example.com/job"⟩

/-- A record with every field absent, for the analytics examples. -/
def bareJob : Job := ⟨none, none, none, none⟩

/-- A two-record list with exactly one valid link. -/
def mixedJobs : List Job := [linkedJob, bareJob]

/-- The summary the analytics computes on mixedJobs (extracted so that the
witnesses below can name it). -/
def mixedSummary : AnalyticsSummary := (analytics mixedJobs).getD ⟨0, 0, 0, 0, [], []⟩

/-- The comparison is skew-symmetric. -/
theorem lexCmp_skew : ∀ a b : List Char, lexCmp a b = -lexCmp b a := by
  intro a
  induction a with
  | nil => intro b; cases b <;> simp [lexCmp]
  | cons x as ih =>
    intro b
    cases b with
    | nil => simp [lexCmp]
    | cons y bs =>
      simp only [lexCmp]
      by_cases hxy : x < y
      · have hyx : ¬ y < x := lt_asymm hxy
        simp [hxy, hyx]
      · by_cases hyx : y < x
        · simp [hxy, hyx]
        · simp only [if_neg hxy, if_neg hyx]
          exact ih bs

/-- The comparison is zero exactly on equal lists. -/
theorem lexCmp_eq_zero : ∀ a b : List Char, lexCmp a b = 0 ↔ a = b := by
  intro a
  induction a with
  | nil => intro b; cases b <;> simp [lexCmp]
  | cons x as ih =>
    intro b
    cases b with
    | nil => simp [lexCmp]
    | cons y bs =>
      simp only [lexCmp]
      by_cases hxy : x < y
      · have hne : x ≠ y := ne_of_lt hxy
        simp [hxy, hne]
      · by_cases hyx : y < x
        · have hne : x ≠ y := (ne_of_lt hyx).symm
          simp [hxy, hyx, hne]
        · have hxyeq : x = y := le_antisymm (not_lt.mp hyx) (not_lt.mp hxy)
          subst hxyeq
          simp [hxy, ih bs]

/-- The nonpositive half of the comparison is transitive. -/
theorem lexCmp_trans_le :
    ∀ a b d : List Char, lexCmp a b ≤ 0 → lexCmp b d ≤ 0 → lexCmp a d ≤ 0 := by
  intro a
  induction a with
  | nil =>
    intro b d _ _
    cases d <;> simp [lexCmp]
  | cons x as ih =>
    intro b d h1 h2
    cases b with
    | nil => simp [lexCmp] at h1
    | cons y bs =>
      cases d with
      | nil => simp [lexCmp] at h2
      | cons z ds =>
        simp only [lexCmp] at h1 h2 ⊢
        by_cases hxy : x < y
        · by_cases hyz : y < z
          · have hxz : x < z := lt_trans hxy hyz
            simp [hxz]
          · by_cases hzy : z < y
            · simp [hyz, hzy] at h2
            · have hyzeq : y = z := le_antisymm (not_lt.mp hzy) (not_lt.mp hyz)
              subst hyzeq
              simp [hxy]
        · by_cases hyx : y < x
          · simp [hxy, hyx] at h1
          · simp only [if_neg hxy, if_neg hyx] at h1
            have hxyeq : x = y := le_antisymm (not_lt.mp hyx) (not_lt.mp hxy)
            subst hxyeq
            by_cases hxz : x < z
            · simp [hxz]
            · by_cases hzx : z < x
              · simp [hxz, hzx] at h2
              · simp only [if_neg hxz, if_neg hzx] at h2 ⊢
                exact ih bs ds h1 h2

/-- Mixed transitivity: nonpositive then negative gives negative. -/
theorem lexCmp_le_lt :
    ∀ a b d : List Char, lexCmp a b ≤ 0 → lexCmp b d < 0 → lexCmp a d < 0 := by
  intro a b d h1 h2
  by_contra h
  push_neg at h
  have hda : lexCmp d a ≤ 0 := by have := lexCmp_skew d a; omega
  have hdb : lexCmp d b ≤ 0 := lexCmp_trans_le d a b hda h1
  have := lexCmp_skew b d
  omega

/-- Mixed transitivity: negative then nonpositive gives negative. -/
theorem lexCmp_lt_le :
    ∀ a b d : List Char, lexCmp a b < 0 → lexCmp b d ≤ 0 → lexCmp a d < 0 := by
  intro a b d h1 h2
  by_contra h
  push_neg at h
  have hda : lexCmp d a ≤ 0 := by have := lexCmp_skew d a; omega
  have hdb : lexCmp d b ≤ 0 := lexCmp_trans_le d a b hda (le_of_lt h1)
  have hbd0 : lexCmp b d = 0 := by have := lexCmp_skew d b; omega
  have hbd : b = d := (lexCmp_eq_zero b d).mp hbd0
  subst hbd
  omega

/-- Skew symmetry, lifted to strings. -/
theorem localeCompare_skew (a b : String) : localeCompare a b = -localeCompare b a :=
  lexCmp_skew a.data b.data

/-- Zero comparison characterizes equal strings. -/
theorem localeCompare_eq_zero (a b : String) : localeCompare a b = 0 ↔ a = b := by
  unfold localeCompare
  rw [lexCmp_eq_zero]
  constructor
  · intro h
    cases a
    cases b
    exact congrArg String.mk h
  · intro h
    rw [h]

/-- Transitivity, lifted to strings. -/
theorem localeCompare_trans_le (a b d : String) :
    localeCompare a b ≤ 0 → localeCompare b d ≤ 0 → localeCompare a d ≤ 0 :=
  lexCmp_trans_le a.data b.data d.data

/-- Mixed transitivity, lifted to strings. -/
theorem localeCompare_le_lt (a b d : String) :
    localeCompare a b ≤ 0 → localeCompare b d < 0 → localeCompare a d < 0 :=
  lexCmp_le_lt a.data b.data d.data

/-- Mixed transitivity, lifted to strings. -/
theorem localeCompare_lt_le (a b d : String) :
    localeCompare a b < 0 → localeCompare b d ≤ 0 → localeCompare a d < 0 :=
  lexCmp_lt_le a.data b.data d.data

/-- The job comparator is skew-symmetric in both directions. -/
theorem jobCmp_skew (field dir : String) (a b : Job) :
    jobCmp field dir a b = -jobCmp field dir b a := by
  by_cases h : dir = "asc"
  · simp only [jobCmp, if_pos h]
    exact localeCompare_skew _ _
  · simp only [jobCmp, if_neg h]
    rw [localeCompare_skew (sortKey a field)]

/-- The job comparator is transitive on its nonpositive half. -/
theorem jobCmp_trans_le (field dir : String) (a b d : Job) :
    jobCmp field dir a b ≤ 0 → jobCmp field dir b d ≤ 0 → jobCmp field dir a d ≤ 0 := by
  by_cases h : dir = "asc"
  · simp only [jobCmp, if_pos h]
    exact localeCompare_trans_le _ _ _
  · simp only [jobCmp, if_neg h]
    intro h1 h2
    have e1 := localeCompare_skew (sortKey a field) (sortKey b field)
    have e2 := localeCompare_skew (sortKey b field) (sortKey d field)
    have e3 := localeCompare_skew (sortKey a field) (sortKey d field)
    have h1b : localeCompare (sortKey b field) (sortKey a field) ≤ 0 := by omega
    have h2b : localeCompare (sortKey d field) (sortKey b field) ≤ 0 := by omega
    have :=
      localeCompare_trans_le (sortKey d field) (sortKey b field) (sortKey a field) h2b h1b
    omega

/-- The job comparator vanishes exactly on equal sort keys. -/
theorem jobCmp_eq_zero (field dir : String) (a b : Job) :
    jobCmp field dir a b = 0 ↔ sortKey a field = sortKey b field := by
  by_cases h : dir = "asc"
  · simp only [jobCmp, if_pos h]
    exact localeCompare_eq_zero _ _
  · simp only [jobCmp, if_neg h, neg_eq_zero]
    exact localeCompare_eq_zero _ _

/-- Strict-then-lax transitivity for the job comparator. -/
theorem jobCmp_lt_le (field dir : String) (a b d : Job) :
    jobCmp field dir a b < 0 → jobCmp field dir b d ≤ 0 → jobCmp field dir a d < 0 := by
  by_cases h : dir = "asc"
  · simp only [jobCmp, if_pos h]
    exact localeCompare_lt_le _ _ _
  · simp only [jobCmp, if_neg h]
    intro h1 h2
    have e1 := localeCompare_skew (sortKey a field) (sortKey b field)
    have e2 := localeCompare_skew (sortKey b field) (sortKey d field)
    have e3 := localeCompare_skew (sortKey a field) (sortKey d field)
    have h1b : localeCompare (sortKey b field) (sortKey a field) < 0 := by omega
    have h2b : localeCompare (sortKey d field) (sortKey b field) ≤ 0 := by omega
    have :=
      localeCompare_le_lt (sortKey d field) (sortKey b field) (sortKey a field) h2b h1b
    omega

/-- Inserting is a permutation of consing. -/
theorem jsInsert_perm {α : Type} (c : α → α → Int) (x : α) (l : List α) :
    (jsInsert c x l).Perm (x :: l) := by
  induction l with
  | nil => simp [jsInsert]
  | cons y ys ih =>
    simp only [jsInsert]
    by_cases h : c x y < 0
    · rw [if_pos h]
    · rw [if_neg h]
      exact (ih.cons y).trans (List.Perm.swap x y ys)

/-- The fold underlying the sort permutes the accumulator and the input. -/
theorem jsSortAux_perm {α : Type} (c : α → α → Int) (l : List α) :
    ∀ acc : List α, (List.foldl (fun acc x => jsInsert c x acc) acc l).Perm (acc ++ l) := by
  induction l with
  | nil => intro acc; simp
  | cons x xs ih =>
    intro acc
    simp only [List.foldl_cons]
    refine (ih (jsInsert c x acc)).trans ?_
    refine (List.Perm.append_right xs (jsInsert_perm c x acc)).trans ?_
    exact List.perm_middle.symm

/-- The sort model returns a permutation of its input. -/
theorem jsSort_perm {α : Type} (c : α → α → Int) (l : List α) : (jsSort c l).Perm l := by
  simpa using jsSortAux_perm c l []

/-- Inserting into a sorted list keeps it sorted, for any skew-symmetric
transitive comparator. -/
theorem jsInsert_pairwise {α : Type} (c : α → α → Int)
    (hskew : ∀ a b, c a b = -c b a)
    (htrans : ∀ a b d, c a b ≤ 0 → c b d ≤ 0 → c a d ≤ 0)
    (x : α) (l : List α) (hl : l.Pairwise fun a b => c a b ≤ 0) :
    (jsInsert c x l).Pairwise (fun a b => c a b ≤ 0) := by
  induction l with
  | nil => simp [jsInsert]
  | cons y ys ih =>
    rcases List.pairwise_cons.mp hl with ⟨hy, hys⟩
    by_cases h : c x y < 0
    · simp only [jsInsert, if_pos h]
      refine List.pairwise_cons.mpr ⟨?_, hl⟩
      intro z hz
      rcases List.mem_cons.mp hz with rfl | hz2
      · exact le_of_lt h
      · exact htrans x y z (le_of_lt h) (hy z hz2)
    · simp only [jsInsert, if_neg h]
      refine List.pairwise_cons.mpr ⟨?_, ih hys⟩
      intro z hz
      rcases List.mem_cons.mp ((jsInsert_perm c x ys).mem_iff.mp hz) with rfl | hz3
      · have h0 : 0 ≤ c z y := not_lt.mp h
        have hsk := hskew y z
        omega
      · exact hy z hz3

/-- The fold underlying the sort preserves sortedness of the accumulator. -/
theorem jsSortAux_pairwise {α : Type} (c : α → α → Int)
    (hskew : ∀ a b, c a b = -c b a)
    (htrans : ∀ a b d, c a b ≤ 0 → c b d ≤ 0 → c a d ≤ 0)
    (l : List α) :
    ∀ acc : List α, acc.Pairwise (fun a b => c a b ≤ 0) →
      (List.foldl (fun acc x => jsInsert c x acc) acc l).Pairwise (fun a b => c a b ≤ 0) := by
  induction l with
  | nil => intro acc hacc; simpa using hacc
  | cons x xs ih =>
    intro acc hacc
    simp only [List.foldl_cons]
    exact ih _ (jsInsert_pairwise c hskew htrans x acc hacc)

/-- The sort model sorts, for any skew-symmetric transitive comparator. -/
theorem jsSort_pairwise {α : Type} (c : α → α → Int)
    (hskew : ∀ a b, c a b = -c b a)
    (htrans : ∀ a b d, c a b ≤ 0 → c b d ≤ 0 → c a d ≤ 0)
    (l : List α) : (jsSort c l).Pairwise (fun a b => c a b ≤ 0) :=
  jsSortAux_pairwise c hskew htrans l [] (by simp)

/-- Inserting into a sorted list places the new element after every element
with the same key, so the key-class subsequence gains the element at its
end. -/
theorem jsInsert_filter_key {α : Type} (c : α → α → Int) (key : α → String)
    (hkey : ∀ a b, c a b = 0 ↔ key a = key b)
    (hltle : ∀ a b d, c a b < 0 → c b d ≤ 0 → c a d < 0)
    (k : String) (x : α) (l : List α) (hl : l.Pairwise fun a b => c a b ≤ 0) :
    (jsInsert c x l).filter (fun a => decide (key a = k))
      = if key x = k
        then l.filter (fun a => decide (key a = k)) ++ [x]
        else l.filter (fun a => decide (key a = k)) := by
  induction l with
  | nil =>
    by_cases hx : key x = k <;> simp [jsInsert, hx]
  | cons y ys ih =>
    rcases List.pairwise_cons.mp hl with ⟨hy, hys⟩
    by_cases h : c x y < 0
    · simp only [jsInsert, if_pos h]
      by_cases hx : key x = k
      · have hfe : (y :: ys).filter (fun a => decide (key a = k)) = [] := by
          rw [List.filter_eq_nil_iff]
          intro z hz
          simp only [decide_eq_true_eq]
          rcases List.mem_cons.mp hz with rfl | hz2
          · intro hzk
            have h0 : c x z = 0 := (hkey x z).mpr (by rw [hx, hzk])
            omega
          · intro hzk
            have hlt : c x z < 0 := hltle x y z h (hy z hz2)
            have h0 : c x z = 0 := (hkey x z).mpr (by rw [hx, hzk])
            omega
        rw [if_pos hx, List.filter_cons_of_pos (by simpa using hx), hfe]
        rfl
      · rw [if_neg hx, List.filter_cons_of_neg (by simpa using hx)]
    · simp only [jsInsert, if_neg h]
      rw [List.filter_cons, ih hys]
      by_cases hyk : key y = k <;> by_cases hx : key x = k <;>
        simp [hyk, hx, List.filter_cons]

/-- The fold underlying the sort preserves each key-class subsequence. -/
theorem jsSortAux_filter_key {α : Type} (c : α → α → Int) (key : α → String)
    (hskew : ∀ a b, c a b = -c b a)
    (htrans : ∀ a b d, c a b ≤ 0 → c b d ≤ 0 → c a d ≤ 0)
    (hkey : ∀ a b, c a b = 0 ↔ key a = key b)
    (hltle : ∀ a b d, c a b < 0 → c b d ≤ 0 → c a d < 0)
    (k : String) (l : List α) :
    ∀ acc : List α, acc.Pairwise (fun a b => c a b ≤ 0) →
      (List.foldl (fun acc x => jsInsert c x acc) acc l).filter (fun a => decide (key a = k))
        = acc.filter (fun a => decide (key a = k)) ++ l.filter (fun a => decide (key a = k)) := by
  induction l with
  | nil => intro acc _; simp
  | cons x xs ih =>
    intro acc hacc
    simp only [List.foldl_cons]
    rw [ih (jsInsert c x acc) (jsInsert_pairwise c hskew htrans x acc hacc),
      jsInsert_filter_key c key hkey hltle k x acc hacc, List.filter_cons]
    by_cases hx : key x = k <;> simp [hx]

/-- Stability of the sort model: the subsequence of elements whose key is k
is unchanged by sorting. -/
theorem jsSort_filter_key {α : Type} (c : α → α → Int) (key : α → String)
    (hskew : ∀ a b, c a b = -c b a)
    (htrans : ∀ a b d, c a b ≤ 0 → c b d ≤ 0 → c a d ≤ 0)
    (hkey : ∀ a b, c a b = 0 ↔ key a = key b)
    (hltle : ∀ a b d, c a b < 0 → c b d ≤ 0 → c a d < 0)
    (k : String) (l : List α) :
    (jsSort c l).filter (fun a => decide (key a = k))
      = l.filter (fun a => decide (key a = k)) := by
  simpa using jsSortAux_filter_key c key hskew htrans hkey hltle k l [] (by simp)

/-- The first-occurrence key list is never longer than the key list. -/
theorem firstOccurrences_length_le (l : List String) :
    (firstOccurrences l).length ≤ l.length := by
  induction l with
  | nil => simp [firstOccurrences]
  | cons k rest ih =>
    simp only [firstOccurrences, List.length_cons]
    have h := List.length_filter_le (fun k2 => k2 != k) (firstOccurrences rest)
    omega

/-- Claim C1, counterexample. As stated, the claim fails on a whitespace-only
filter text: the code treats a filter text whose trimmed form is empty as no
filter at all and keeps a record containing no space character, while the
claimed semantics (substring match with the non-empty filter text) would drop
it. -/
theorem filter_whitespace_counterexample :
    processedJobs [demoJob1] " " "" "asc" = [demoJob1]
      ∧ specFilterView " " [demoJob1] = [] := by
  constructor
  · decide
  · decide

/-- Claim C1, amended. The ProcessedView with no sort field set is exactly the
filter stage; a filter text whose trimmed form is empty passes every record;
otherwise exactly the records whose lower-cased title, company or location
contains the lower-cased untrimmed filter text are kept; and on the worked
example, filtering by acme yields exactly the first two records in order. -/
theorem filter_semantics_amended (jobs : List Job) (ft dir : String) :
    processedJobs jobs ft "" dir = filterJobs ft jobs
      ∧ (jsTrim ft = "" → filterJobs ft jobs = jobs)
      ∧ (jsTrim ft ≠ "" → filterJobs ft jobs = jobs.filter (jobMatches ft))
      ∧ processedJobs demoJobs "acme" "" "asc" = [demoJob1, demoJob2] := by
  refine ⟨rfl, ?_, ?_, by decide⟩
  · intro h
    simp [filterJobs, h]
  · intro h
    simp [filterJobs, h]

/-- Witness for the amended claim C1 at concrete inputs. -/
theorem filter_semantics_amended_witness :
    processedJobs demoJobs "acme" "" "asc" = [demoJob1, demoJob2]
      ∧ filterJobs "   " demoJobs = demoJobs :=
  ⟨(filter_semantics_amended demoJobs "acme" "asc").2.2.2,
   (filter_semantics_amended demoJobs "   " "asc").2.1 (by decide)⟩

/-- Claim C10. The emptiness test of the filter is applied to the trimmed
filter text, so a whitespace-only filter passes every record; when the
trimmed text is non-empty, the untrimmed filter text (leading and trailing
whitespace included) is the substring that is matched, as the concrete
example with a leading space shows. -/
theorem filter_trim_semantics (jobs : List Job) (ft : String) :
    (jsTrim ft = "" → filterJobs ft jobs = jobs)
      ∧ (jsTrim ft ≠ "" → filterJobs ft jobs = jobs.filter (jobMatches ft))
      ∧ filterJobs " x" [⟨some "ax", none, none, none⟩, ⟨some "a x", none, none, none⟩]
          = [⟨some "a x", none, none, none⟩] := by
  refine ⟨?_, ?_, by decide⟩
  · intro h
    simp [filterJobs, h]
  · intro h
    simp [filterJobs, h]

/-- Witness for claim C10 at concrete inputs. -/
theorem filter_trim_semantics_witness :
    filterJobs "  " demoJobs = demoJobs
      ∧ filterJobs "acme" demoJobs = demoJobs.filter (jobMatches "acme") :=
  ⟨(filter_trim_semantics demoJobs "  ").1 (by decide),
   (filter_trim_semantics demoJobs "acme").2.1 (by decide)⟩

/-- Claim C3. The analytics returns the no-data signal exactly on the empty
job list, and otherwise a summary whose totalJobs is the length of the input
and whose uniqueCompanies is at most that length. -/
theorem analytics_totals (jobs : List Job) :
    (analytics jobs = none ↔ jobs = [])
      ∧ ∀ a : AnalyticsSummary, analytics jobs = some a →
          a.totalJobs = jobs.length ∧ a.uniqueCompanies ≤ jobs.length := by
  constructor
  · by_cases h : jobs.length = 0
    · simp [analytics, h, List.length_eq_zero.mp h]
    · simp only [analytics, if_neg h]
      constructor
      · intro hc
        exact Option.noConfusion hc
      · intro hc
        exact absurd (by rw [hc]; rfl) h
  · intro a ha
    by_cases h : jobs.length = 0
    · simp [analytics, h] at ha
    · simp only [analytics, if_neg h] at ha
      have h2 := Option.some.inj ha
      subst h2
      constructor
      · rfl
      · calc (firstOccurrences (jobs.map companyKey)).length
            ≤ (jobs.map companyKey).length := firstOccurrences_length_le _
          _ = jobs.length := List.length_map _ _

/-- Witness for claim C3 at a concrete two-record list. -/
theorem analytics_totals_witness :
    mixedSummary.totalJobs = mixedJobs.length
      ∧ mixedSummary.uniqueCompanies ≤ mixedJobs.length :=
  (analytics_totals mixedJobs).2 mixedSummary rfl

/-- Claim C5. A requested format outside the closed set csv, excel, json is
rejected without issuing a network request, and the surfaced error wraps the
locally thrown invalid-format error as its original cause. -/
theorem download_invalid_format_rejected (format : String) (net : DlNet)
    (h : format ∉ validFormats) :
    (downloadFile format net).2 = false
      ∧ (downloadFile format net).1
          = .error ⟨"Download failed", .thrownError ("Invalid format: " ++ format), none⟩ := by
  constructor <;> simp [downloadFile, h]

/-- Witness for claim C5 at the format pdf. -/
theorem download_invalid_format_rejected_witness :
    (downloadFile "pdf" (.ok ⟨0⟩)).2 = false
      ∧ (downloadFile "pdf" (.ok ⟨0⟩)).1
          = .error ⟨"Download failed", .thrownError ("Invalid format: " ++ "pdf"), none⟩ :=
  download_invalid_format_rejected "pdf" (.ok ⟨0⟩) (by decide)

/-- Claim C6. Whatever the format and the outcome of the download, the busy
flag of that format is false after handleDownload returns whenever data was
present (the finally block runs on both exit paths), and untouched when the
early no-data return fires before the flag was ever set. -/
theorem download_busy_flag_cleared (hasData : Bool) (format : String) (net : DlNet)
    (nowIso : String) (s : DlState) :
    (handleDownload hasData format net nowIso s).1.downloading format
      = if hasData then false else s.downloading format := by
  cases hasData with
  | false => simp [handleDownload]
  | true =>
    cases hdl : (downloadFile format net).1 with
    | ok b => simp [handleDownload, hdl, setBusy]
    | error e => simp [handleDownload, hdl, setBusy]

/-- Claim C9. Every failure surfaced by downloadFile carries the fixed
message Download failed; the distinguishing cause appears only in the
attached originalError: the locally thrown invalid-format error for a bad
format, and the transport failure otherwise. -/
theorem download_error_message_uniform (format : String) (net : DlNet) (e : EnhancedError)
    (h : (downloadFile format net).1 = .error e) :
    e.message = "Download failed"
      ∧ (format ∉ validFormats →
          e.originalError = .thrownError ("Invalid format: " ++ format))
      ∧ (∀ f : NetFail, net = .fail f → format ∈ validFormats →
          e.originalError = .network f) := by
  by_cases hv : format ∈ validFormats
  · cases net with
    | ok b => simp [downloadFile, hv] at h
    | fail f =>
      simp [downloadFile, hv] at h
      subst h
      refine ⟨rfl, ?_, ?_⟩
      · intro hc
        exact absurd hv hc
      · intro f2 hf2 _
        injection hf2 with h3
        subst h3
        rfl
  · simp [downloadFile, hv] at h
    subst h
    refine ⟨rfl, fun _ => rfl, ?_⟩
    intro f hf hc
    exact absurd hc hv

/-- Witness for claim C9 at the format pdf. -/
theorem download_error_message_uniform_witness :
    (⟨"Download failed", .thrownError ("Invalid format: " ++ "pdf"), none⟩
        : EnhancedError).message = "Download failed" :=
  (download_error_message_uniform "pdf" (.ok ⟨0⟩)
    ⟨"Download failed", .thrownError ("Invalid format: " ++ "pdf"), none⟩ rfl).1

/-- Claim C7, counterexample. With an out-of-range page count but a blank job
title, the request is still rejected before any network call, yet the
rejection message is the job-title message, which contains no digit and so
cannot reference the 1 to 10 bound as the claim requires of every such
rejection. -/
theorem pages_validation_counterexample :
    (scrapeJobs "" "Remote" 15 (.ok ⟨true, [], 0, 0, none⟩)).2 = false
      ∧ (scrapeJobs "" "Remote" 15 (.ok ⟨true, [], 0, 0, none⟩)).1
          = .error ⟨"Job title is required and must be a non-empty string",
                    .thrownError "Job title is required and must be a non-empty string", none⟩
      ∧ jsIncludes "Job title is required and must be a non-empty string" "1" = false := by
  refine ⟨by decide, rfl, by decide⟩

/-- Claim C7, amended. For every page count outside 1 to 10 the request
client rejects before any network call; when the job title passes its own
validation, the rejection message is the pages message, which references the
1 to 10 bound (it contains the substrings 1 and 10). -/
theorem pages_validation_amended (jobTitle location : String) (pages : Int) (net : ScrapeNet)
    (hp : pages < 1 ∨ pages > 10) :
    (scrapeJobs jobTitle location pages net).2 = false
      ∧ (jsTrim jobTitle ≠ "" →
          (scrapeJobs jobTitle location pages net).1
            = .error ⟨"Pages must be between 1 and 10",
                      .thrownError "Pages must be between 1 and 10", none⟩)
      ∧ jsIncludes "Pages must be between 1 and 10" "1" = true
      ∧ jsIncludes "Pages must be between 1 and 10" "10" = true := by
  refine ⟨?_, ?_, by decide, by decide⟩
  · by_cases ht : jsTrim jobTitle = ""
    · simp [scrapeJobs, ht]
    · simp [scrapeJobs, ht, hp]
  · intro ht
    simp [scrapeJobs, ht, hp]

/-- Witness for the amended claim C7 at pages 15 with a valid job title. -/
theorem pages_validation_amended_witness :
    (scrapeJobs "python developer" "Remote" 15 (.ok ⟨true, [], 0, 0, none⟩)).2 = false
      ∧ (scrapeJobs "python developer" "Remote" 15 (.ok ⟨true, [], 0, 0, none⟩)).1
          = .error ⟨"Pages must be between 1 and 10",
                    .thrownError "Pages must be between 1 and 10", none⟩ :=
  ⟨(pages_validation_amended "python developer" "Remote" 15 (.ok ⟨true, [], 0, 0, none⟩)
      (Or.inr (by decide))).1,
   (pages_validation_amended "python developer" "Remote" 15 (.ok ⟨true, [], 0, 0, none⟩)
      (Or.inr (by decide))).2.1 (by decide)⟩

/-- Claim C8. On a successful export of a format in the closed set, the saved
filename is indeed-jobs-, then the timestamp, then a period and the matching
extension (csv, xlsx or json), and the timestamp contains neither a colon nor
a period. -/
theorem download_filename_shape (format : String) (b : Blob) (nowIso : String) (s : DlState)
    (h : format = "csv" ∨ format = "excel" ∨ format = "json") :
    (handleDownload true format (.ok b) nowIso s).2.1
        = some ("indeed-jobs-" ++ jsTimestamp nowIso ++ "."
            ++ (if format = "csv" then "csv" else if format = "excel" then "xlsx" else "json"))
      ∧ ∀ ch ∈ (jsTimestamp nowIso).data, ch ≠ ':' ∧ ch ≠ '.' := by
  constructor
  · rcases h with h | h | h <;> subst h <;> rfl
  · intro ch hch
    have hdata : (jsTimestamp nowIso).data = (nowIso.data.map replChar).take 19 := rfl
    rw [hdata] at hch
    have hch2 : ch ∈ nowIso.data.map replChar := List.take_subset _ _ hch
    rcases List.mem_map.mp hch2 with ⟨d, _, rfl⟩
    unfold replChar
    by_cases hd : d = ':' ∨ d = '.'
    · rw [if_pos hd]
      exact ⟨by decide, by decide⟩
    · rw [if_neg hd]
      push_neg at hd
      exact hd

/-- Witness for claim C8 at a concrete ISO time and the format csv. -/
theorem download_filename_shape_witness :
    (handleDownload true "csv" (.ok ⟨0⟩) "2026-02-03T04:05:06.789Z"
        ⟨fun _ => false, ⟨0, none, []⟩⟩).2.1 = some "indeed-jobs-2026-02-03T04-05-06.csv" :=
  ((download_filename_shape "csv" ⟨0⟩ "2026-02-03T04:05:06.789Z"
      ⟨fun _ => false, ⟨0, none, []⟩⟩ (Or.inl rfl)).1).trans (by decide)

/-- Claim C2. With a sort field set and no filter, the ProcessedView sorts
stably: for every key value, the subsequence of records carrying that key is
unchanged by the ascending and by the descending sort; the descending key
sequence is the reverse of the ascending one (reversibility modulo the
stable tie order); a record missing the sort field compares as the empty
string; and sorting the worked example by company ascending yields the two
Acme records in their original relative order followed by the Beta record. -/
theorem sort_stable_reversible (jobs : List Job) (field k : String) (hf : field ≠ "") :
    ((processedJobs jobs "" field "asc").filter (fun j => decide (sortKey j field = k))
        = jobs.filter (fun j => decide (sortKey j field = k)))
      ∧ ((processedJobs jobs "" field "desc").filter (fun j => decide (sortKey j field = k))
          = jobs.filter (fun j => decide (sortKey j field = k)))
      ∧ ((processedJobs jobs "" field "desc").map (fun j => sortKey j field)
          = ((processedJobs jobs "" field "asc").map (fun j => sortKey j field)).reverse)
      ∧ (∀ j : Job, jobGet j field = none → sortKey j field = "")
      ∧ processedJobs demoJobs "" "Company" "asc" = [demoJob1, demoJob2, demoJob3] := by
  have hproc : ∀ dir : String,
      processedJobs jobs "" field dir = jsSort (jobCmp field dir) jobs := by
    intro dir
    have hfil : filterJobs "" jobs = jobs := rfl
    simp [processedJobs, hfil, sortStage, hf]
  have hstab : ∀ dir : String,
      (jsSort (jobCmp field dir) jobs).filter (fun j => decide (sortKey j field = k))
        = jobs.filter (fun j => decide (sortKey j field = k)) := by
    intro dir
    exact jsSort_filter_key (jobCmp field dir) (fun j => sortKey j field)
      (jobCmp_skew field dir) (jobCmp_trans_le field dir)
      (jobCmp_eq_zero field dir) (jobCmp_lt_le field dir) k jobs
  have hA := jsSort_pairwise (jobCmp field "asc")
    (jobCmp_skew field "asc") (jobCmp_trans_le field "asc") jobs
  have hD := jsSort_pairwise (jobCmp field "desc")
    (jobCmp_skew field "desc") (jobCmp_trans_le field "desc") jobs
  have hA2 : ((jsSort (jobCmp field "asc") jobs).map (fun j => sortKey j field)).Pairwise
      (fun s t => localeCompare s t ≤ 0) := by
    rw [List.pairwise_map]
    refine hA.imp ?_
    intro a b hab
    simpa [jobCmp] using hab
  have hD2 : ((jsSort (jobCmp field "desc") jobs).map (fun j => sortKey j field)).Pairwise
      (fun s t => localeCompare t s ≤ 0) := by
    rw [List.pairwise_map]
    refine hD.imp ?_
    intro a b hab
    have hs := localeCompare_skew (sortKey a field) (sortKey b field)
    have hne : ("desc" : String) ≠ "asc" := by decide
    simp only [jobCmp, if_neg hne] at hab
    omega
  have hrev : (((jsSort (jobCmp field "asc") jobs).map (fun j => sortKey j field)).reverse).Pairwise
      (fun s t => localeCompare t s ≤ 0) := by
    rw [List.pairwise_reverse]
    exact hA2
  have hperm : ((jsSort (jobCmp field "desc") jobs).map (fun j => sortKey j field)).Perm
      (((jsSort (jobCmp field "asc") jobs).map (fun j => sortKey j field)).reverse) := by
    refine ((jsSort_perm (jobCmp field "desc") jobs).map _).trans ?_
    refine (((jsSort_perm (jobCmp field "asc") jobs).map _).symm).trans ?_
    exact (List.reverse_perm _).symm
  haveI : IsAntisymm String (fun s t => localeCompare t s ≤ 0) := by
    refine ⟨?_⟩
    intro a b h1 h2
    have hs := localeCompare_skew a b
    have h0 : localeCompare a b = 0 := by omega
    exact (localeCompare_eq_zero a b).mp h0
  have hmain := List.eq_of_perm_of_sorted hperm hD2 hrev
  refine ⟨?_, ?_, ?_, ?_, by decide⟩
  · rw [hproc "asc"]
    exact hstab "asc"
  · rw [hproc "desc"]
    exact hstab "desc"
  · rw [hproc "asc", hproc "desc"]
    exact hmain
  · intro j hj
    simp [sortKey, hj]

/-- Witness for claim C2 at the worked example, field Company, key Acme. -/
theorem sort_stable_reversible_witness :
    processedJobs demoJobs "" "Company" "asc" = [demoJob1, demoJob2, demoJob3]
      ∧ (processedJobs demoJobs "" "Company" "asc").filter
            (fun j => decide (sortKey j "Company" = "Acme"))
          = demoJobs.filter (fun j => decide (sortKey j "Company" = "Acme")) :=
  ⟨(sort_stable_reversible demoJobs "Company" "Acme" (by decide)).2.2.2.2,
   (sort_stable_reversible demoJobs "Company" "Acme" (by decide)).1⟩

/-- Claim C4, counterexample. On a one-record list whose link is the defined
empty string, the code computes a valid-link percentage of 0 because the
empty string is falsy, while the claimed formula counts every defined link
different from the sentinel and yields 100. -/
theorem validLink_percentage_counterexample :
    ¬ ((analytics [(⟨none, none, none, some ""⟩ : Job)]).map (fun a => a.validLinksPercentage)
        = some (mathRound (100
            * ((([(⟨none, none, none, some ""⟩ : Job)].filter specLinkValid).length : ℚ))
            / (([(⟨none, none, none, some ""⟩ : Job)] : List Job).length : ℚ)))) := by
  intro hcl
  have h1 : (analytics [(⟨none, none, none, some ""⟩ : Job)]).map (fun a => a.validLinksPercentage)
      = some (mathRound
          (((List.filter linkValid [(⟨none, none, none, some ""⟩ : Job)]).length : ℚ)
            / (([(⟨none, none, none, some ""⟩ : Job)] : List Job).length : ℚ) * 100)) := rfl
  rw [h1] at hcl
  have h2 : (List.filter linkValid [(⟨none, none, none, some ""⟩ : Job)]).length = 0 := by decide
  have h3 : (List.filter specLinkValid [(⟨none, none, none, some ""⟩ : Job)]).length = 1 := by
    decide
  have h4 : ([(⟨none, none, none, some ""⟩ : Job)] : List Job).length = 1 := by decide
  rw [h2, h3, h4] at hcl
  have h5 := Option.some.inj hcl
  norm_num [mathRound] at h5

/-- Claim C4, amended. For every job list accepted by the analytics, the
valid-link percentage equals the rounded ratio computed from the links that
are defined, non-empty and different from the sentinel; it always lies
between 0 and 100; it is 100 when every record carries such a link and 0
when none does. -/
theorem validLink_percentage_amended (jobs : List Job) (a : AnalyticsSummary)
    (h : analytics jobs = some a) :
    a.validLinksPercentage
        = mathRound (100 * ((jobs.filter linkValid).length : ℚ) / (jobs.length : ℚ))
      ∧ 0 ≤ a.validLinksPercentage ∧ a.validLinksPercentage ≤ 100
      ∧ ((∀ j ∈ jobs, linkValid j = true) → a.validLinksPercentage = 100)
      ∧ ((∀ j ∈ jobs, linkValid j = false) → a.validLinksPercentage = 0) := by
  have hn : jobs.length ≠ 0 := by
    intro h0
    simp [analytics, h0] at h
  simp only [analytics, if_neg hn] at h
  have h2 := Option.some.inj h
  subst h2
  have hvn : (jobs.filter linkValid).length ≤ jobs.length := List.length_filter_le _ _
  have hq0 : (0 : ℚ) < (jobs.length : ℚ) := by
    exact_mod_cast Nat.pos_of_ne_zero hn
  have hqne : ((jobs.length : ℚ)) ≠ 0 := ne_of_gt hq0
  refine ⟨?_, ?_, ?_, ?_, ?_⟩
  · show mathRound (((jobs.filter linkValid).length : ℚ) / (jobs.length : ℚ) * 100)
        = mathRound (100 * ((jobs.filter linkValid).length : ℚ) / (jobs.length : ℚ))
    congr 1
    ring
  · show (0 : ℤ) ≤ mathRound (((jobs.filter linkValid).length : ℚ) / (jobs.length : ℚ) * 100)
    unfold mathRound
    apply Int.le_floor.mpr
    push_cast
    positivity
  · show mathRound (((jobs.filter linkValid).length : ℚ) / (jobs.length : ℚ) * 100) ≤ 100
    have hdiv : ((jobs.filter linkValid).length : ℚ) / (jobs.length : ℚ) ≤ 1 :=
      (div_le_one hq0).mpr (by exact_mod_cast hvn)
    have hmul : ((jobs.filter linkValid).length : ℚ) / (jobs.length : ℚ) * 100 ≤ 100 := by
      nlinarith
    unfold mathRound
    have hfl : ⌊((jobs.filter linkValid).length : ℚ) / (jobs.length : ℚ) * 100 + 1/2⌋ < 101 := by
      apply Int.floor_lt.mpr
      push_cast
      linarith
    omega
  · intro hall
    have hfe : jobs.filter linkValid = jobs := List.filter_eq_self.mpr hall
    show mathRound (((jobs.filter linkValid).length : ℚ) / (jobs.length : ℚ) * 100) = 100
    rw [hfe, div_self hqne]
    norm_num [mathRound]
  · intro hnone
    have hfe : jobs.filter linkValid = [] := by
      rw [List.filter_eq_nil_iff]
      intro j hj
      simp [hnone j hj]
    show mathRound (((jobs.filter linkValid).length : ℚ) / (jobs.length : ℚ) * 100) = 0
    rw [hfe]
    norm_num [mathRound]

/-- Witness for the amended claim C4 at a concrete two-record list. -/
theorem validLink_percentage_amended_witness :
    0 ≤ mixedSummary.validLinksPercentage ∧ mixedSummary.validLinksPercentage ≤ 100 :=
  ⟨(validLink_percentage_amended mixedJobs mixedSummary rfl).2.1,
   (validLink_percentage_amended mixedJobs mixedSummary rfl).2.2.1⟩
